import Mathlib

/-!
A verification development for a 2-D Barnes-Hut n-body particle simulator.

The source program stores scalars as 32-bit floats.  All scalar arithmetic
in the program (midpoints, centers of mass, merge updates, the
window-to-viewport transform) is plain field arithmetic, which we model
exactly over the rationals.  The square roots produced by the traversal's
distance computation and by vector normalisation are modelled exactly over
the reals with Real.sqrt.  Particle identifiers are v4 UUIDs in the source;
only equality of ids matters, so they are modelled as naturals.
-/

/-- Scalar field of the simulation (source: f32), modelled exactly by ℚ. -/
abbrev Scalar := ℚ

/-- 2-D vector of scalars (source: cgmath Vector2 of f32). -/
abbrev Vec2 := ℚ × ℚ

/-- A simulated body (source: Particle in primitives/particle.rs).
Positions, velocities, masses and radii are exact rationals; the
acceleration written by the force traversal involves a square root
(vector normalisation), so it lives in ℝ × ℝ. -/
structure Particle where
  id : ℕ
  position : Vec2
  mass : Scalar
  radius : Scalar
  velocity : Vec2
  acceleration : ℝ × ℝ

namespace Particle

/-- Source Particle::empty: zero mass, radius and kinematics.  The source
draws a fresh random UUID; the id value is irrelevant to every property
proved here, so the model uses 0. -/
def empty : Particle :=
  { id := 0, position := (0, 0), mass := 0, radius := 0,
    velocity := (0, 0), acceleration := (0, 0) }

end Particle

/-- World-space axis constants (source constants.rs). -/
def MIN_X : Scalar := 0

def MAX_X : Scalar := 1000

def MIN_Y : Scalar := 0

def MAX_Y : Scalar := 1000

/-- Axis-aligned box (source QuadBoundingBox in quadtree/bounding_box.rs). -/
structure QuadBoundingBox where
  min_x : Scalar
  max_x : Scalar
  min_y : Scalar
  max_y : Scalar
deriving DecidableEq

namespace QuadBoundingBox

/-- Center of the x axis of the bounding box. -/
def cx (b : QuadBoundingBox) : Scalar := (b.min_x + b.max_x) / 2

/-- Center of the y axis of the bounding box. -/
def cy (b : QuadBoundingBox) : Scalar := (b.min_y + b.max_y) / 2

/-- Side length of the bounding box (the source uses the x extent). -/
def length (b : QuadBoundingBox) : Scalar := b.max_x - b.min_x

/-- Inclusive containment test (source contains). -/
def contains (b : QuadBoundingBox) (p : Vec2) : Prop :=
  (p.1 ≤ b.max_x ∧ p.2 ≤ b.max_y) ∧ (p.1 ≥ b.min_x ∧ p.2 ≥ b.min_y)

instance (b : QuadBoundingBox) (p : Vec2) : Decidable (b.contains p) := by
  unfold contains; infer_instance

/-- Quadrant classification (source get_point_quadrant): x_bit + (y_bit
shifted left by 1, i.e. doubled), with x_bit set iff p.x ≥ cx and y_bit
set iff p.y ≤ cy. -/
def get_point_quadrant (b : QuadBoundingBox) (p : Vec2) : ℕ :=
  (if p.1 ≥ b.cx then 1 else 0) + (if p.2 ≤ b.cy then 1 else 0) * 2

/-- Child box of a quadrant index (source get_child_bb); indices other
than 0..3 return the box itself, as in the source's catch-all match arm. -/
def get_child_bb (b : QuadBoundingBox) (q : ℕ) : QuadBoundingBox :=
  match q with
  | 0 => { min_x := b.min_x, max_x := b.cx, min_y := b.cy, max_y := b.max_y }
  | 1 => { min_x := b.cx, max_x := b.max_x, min_y := b.cy, max_y := b.max_y }
  | 2 => { min_x := b.min_x, max_x := b.cx, min_y := b.min_y, max_y := b.cy }
  | 3 => { min_x := b.cx, max_x := b.max_x, min_y := b.min_y, max_y := b.cy }
  | _ => b

/-- Root box used for every tree (source Default for QuadBoundingBox). -/
def rootBox : QuadBoundingBox :=
  { min_x := MIN_X, max_x := MAX_X, min_y := MIN_Y, max_y := MAX_Y }

end QuadBoundingBox

/-- A quadtree node (source QuadTree in quadtree/quadtree.rs): a bounding
box, a particle (real at leaves, mass-weighted aggregate at subdivided
nodes) and four optional child slots stored as a list, as the source
stores a Vec of four Options. -/
inductive QuadTree where
  | node (bounding_box : QuadBoundingBox) (particle : Particle)
      (children : List (Option QuadTree))

namespace QuadTree

/-- Source QuadTree::empty: default box, empty particle, four empty slots. -/
def empty : QuadTree :=
  .node QuadBoundingBox.rootBox Particle.empty [none, none, none, none]

def bounding_box : QuadTree → QuadBoundingBox
  | .node b _ _ => b

def particle : QuadTree → Particle
  | .node _ p _ => p

def children : QuadTree → List (Option QuadTree)
  | .node _ _ c => c

@[simp]
theorem bounding_box_node (b : QuadBoundingBox) (p : Particle)
    (c : List (Option QuadTree)) : (QuadTree.node b p c).bounding_box = b := rfl

@[simp]
theorem particle_node (b : QuadBoundingBox) (p : Particle)
    (c : List (Option QuadTree)) : (QuadTree.node b p c).particle = p := rfl

@[simp]
theorem children_node (b : QuadBoundingBox) (p : Particle)
    (c : List (Option QuadTree)) : (QuadTree.node b p c).children = c := rfl

/-- Child slot at a quadrant index (source children[q]); every reachable
tree has exactly four slots and every produced quadrant is below 4. -/
def childAt (t : QuadTree) (q : ℕ) : Option QuadTree :=
  t.children.getD q none

/-- Source QuadTree::update_cm: mass-weighted in-place update of the
node's aggregate particle.  The y coordinate, like the x coordinate, is
combined using the old mass; the mass is written last. -/
def update_cm (t : QuadTree) (x y m : Scalar) : QuadTree :=
  .node t.bounding_box
    { t.particle with
      position :=
        ((t.particle.mass * t.particle.position.1 + x * m) / (t.particle.mass + m),
         (t.particle.mass * t.particle.position.2 + y * m) / (t.particle.mass + m)),
      mass := t.particle.mass + m }
    t.children

/-- Source QuadTree::add_child: create a leaf child in the quadrant of the
given particle's position, with the matching child bounding box. -/
def add_child (t : QuadTree) (particle : Particle) : QuadTree :=
  let quadrant := t.bounding_box.get_point_quadrant particle.position
  .node t.bounding_box t.particle
    (t.children.set quadrant
      (some (.node (t.bounding_box.get_child_bb quadrant) particle
        [none, none, none, none])))

/-- Source QuadTree::is_subdivided: whether any child slot is occupied. -/
def is_subdivided (t : QuadTree) : Bool :=
  t.children.any Option.isSome

/-- The subdivision loop inside QuadTree::insert_particle, written as a
recursion that builds the subtree rooted at the current node.  The node
under construction has bounding box bb, carries the already-updated
aggregate cmp and starts with no children (the source only enters this
loop at a non-subdivided node, whose four slots are all empty, and every
deeper node is freshly created).  pp is the particle that occupied the
leaf before the aggregate update and particle is the incoming one.  While
both fall into the same quadrant the source adds a child holding the
aggregate (placed at the aggregate position's own quadrant) and then
unwraps the slot of the incoming particle's quadrant: none models the
panic should those two quadrants differ.  Once the quadrants separate it
attaches pp and then particle.  Fuel meters the recursion; none models
the source not terminating (or panicking), never a value. -/
def subdivide (cmp pp particle : Particle) :
    QuadBoundingBox → ℕ → Option QuadTree
  | _, 0 => none
  | bb, fuel + 1 =>
    let quadrant := bb.get_point_quadrant particle.position
    let pq := bb.get_point_quadrant pp.position
    if quadrant = pq then
      let qc := bb.get_point_quadrant cmp.position
      if qc = quadrant then
        (subdivide cmp pp particle (bb.get_child_bb quadrant) fuel).map
          (fun sub =>
            .node bb cmp
              (([none, none, none, none] : List (Option QuadTree)).set
                quadrant (some sub)))
      else
        none
    else
      some (((QuadTree.node bb cmp [none, none, none, none]).add_child pp).add_child
        particle)

/-- The walk down already-subdivided nodes inside QuadTree::insert_particle
(the source's while-let loop), together with what follows it.  At a node
whose slot for the particle's quadrant is occupied the source first
updates the node's aggregate and then descends into that child; at a node
with a free slot it either just attaches the particle (when the node is
already subdivided, with no aggregate update) or runs the subdivision
loop (when the node is an occupied leaf).  Fuel meters the recursion;
none models non-termination. -/
def insertDescend (particle : Particle) : QuadTree → ℕ → Option QuadTree
  | _, 0 => none
  | t, fuel + 1 =>
    let quadrant := t.bounding_box.get_point_quadrant particle.position
    match t.childAt quadrant with
    | some child =>
      let t1 := t.update_cm particle.position.1 particle.position.2 particle.mass
      (insertDescend particle child fuel).map
        (fun c =>
          .node t1.bounding_box t1.particle (t1.children.set quadrant (some c)))
    | none =>
      if t.is_subdivided then
        some (t.add_child particle)
      else
        let pp := t.particle
        let t1 := t.update_cm particle.position.1 particle.position.2 particle.mass
        subdivide t1.particle pp particle t.bounding_box fuel

/-- Source QuadTree::insert_particle.  A particle outside the node's
bounding box is dropped silently; an empty root (aggregate mass zero)
receives the particle directly; otherwise the descent runs.  Fuel meters
the loops inside; the result is none exactly when fuel runs out, which
models the situations in which the source loops forever or panics. -/
def insert_particle (t : QuadTree) (particle : Particle) (fuel : ℕ) :
    Option QuadTree :=
  if ¬ t.bounding_box.contains particle.position then
    some t
  else if t.particle.mass = 0 then
    some (.node t.bounding_box particle t.children)
  else
    insertDescend particle t fuel

/-- Source QuadTree::from_points: inserts each particle, in input order,
into an initially empty tree. -/
def from_points (points : List Particle) (fuel : ℕ) : Option QuadTree :=
  points.foldlM (fun t p => insert_particle t p fuel) QuadTree.empty

end QuadTree

/-- The traversal's test d == 0.0, where d = sqrt(d2) is the Euclidean
distance computed in QuadTreeIter::next (source f32::sqrt, modelled by the
exact real square root). -/
def sqrtIsZero (d2 : Scalar) : Prop := Real.sqrt (d2 : ℝ) = 0

theorem sqrtIsZero_iff (d2 : Scalar) : sqrtIsZero d2 ↔ d2 ≤ 0 := by
  unfold sqrtIsZero
  rw [Real.sqrt_eq_zero']
  constructor
  · intro h; exact_mod_cast h
  · intro h; exact_mod_cast h

instance (d2 : Scalar) : Decidable (sqrtIsZero d2) :=
  decidable_of_iff (d2 ≤ 0) (sqrtIsZero_iff d2).symm

/-- The traversal's opening-angle test (s / d) < theta, with d = sqrt(d2)
(source QuadTreeIter::next).  The statement is the literal real-number
comparison; decidability is supplied separately by an equivalent rational
condition. -/
def sqrtDivLt (s d2 θ : Scalar) : Prop :=
  (s : ℝ) / Real.sqrt (d2 : ℝ) < (θ : ℝ)

theorem sqrtDivLt_iff (s d2 θ : Scalar) :
    sqrtDivLt s d2 θ ↔
      (if d2 ≤ 0 then 0 < θ
       else (s < 0 ∧ (θ ≤ 0 → θ ^ 2 * d2 < s ^ 2)) ∨
         (0 ≤ s ∧ 0 < θ ∧ s ^ 2 < θ ^ 2 * d2)) := by
  unfold sqrtDivLt
  by_cases hd : d2 ≤ 0
  · rw [if_pos hd, Real.sqrt_eq_zero'.2 (by exact_mod_cast hd), div_zero]
    constructor
    · intro h; exact_mod_cast h
    · intro h; exact_mod_cast h
  · rw [if_neg hd]
    push_neg at hd
    have hD : (0 : ℝ) < (d2 : ℝ) := by exact_mod_cast hd
    have hsq : (0 : ℝ) < Real.sqrt (d2 : ℝ) := Real.sqrt_pos.2 hD
    rw [div_lt_iff hsq]
    by_cases ht : 0 < θ
    · have hT : (0 : ℝ) < (θ : ℝ) := by exact_mod_cast ht
      by_cases hs : 0 ≤ s
      · have hS : (0 : ℝ) ≤ (s : ℝ) := by exact_mod_cast hs
        have h1 : ((s : ℝ) < (θ : ℝ) * Real.sqrt (d2 : ℝ)) ↔
            ((s : ℝ) / (θ : ℝ) < Real.sqrt (d2 : ℝ)) := by
          rw [div_lt_iff hT, mul_comm]
        have h2 : ((s : ℝ) / (θ : ℝ) < Real.sqrt (d2 : ℝ)) ↔
            (((s : ℝ) / (θ : ℝ)) ^ 2 < (d2 : ℝ)) :=
          Real.lt_sqrt (div_nonneg hS hT.le)
        have h3 : (((s : ℝ) / (θ : ℝ)) ^ 2 < (d2 : ℝ)) ↔
            ((s : ℝ) ^ 2 < (θ : ℝ) ^ 2 * (d2 : ℝ)) := by
          rw [div_pow, div_lt_iff (by positivity), mul_comm]
        rw [h1, h2, h3]
        constructor
        · intro h
          exact Or.inr ⟨hs, ht, by exact_mod_cast h⟩
        · rintro (⟨h1, _⟩ | ⟨_, _, h2⟩)
          · exact absurd h1 (not_lt.2 hs)
          · exact_mod_cast h2
      · push_neg at hs
        constructor
        · intro _
          exact Or.inl ⟨hs, fun hθ => absurd ht (not_lt.2 hθ)⟩
        · intro _
          have hS : (s : ℝ) < 0 := by exact_mod_cast hs
          exact hS.trans (by positivity)
    · push_neg at ht
      have hT : (θ : ℝ) ≤ 0 := by exact_mod_cast ht
      by_cases hs : 0 ≤ s
      · have hS : (0 : ℝ) ≤ (s : ℝ) := by exact_mod_cast hs
        have hmul : (θ : ℝ) * Real.sqrt (d2 : ℝ) ≤ 0 :=
          mul_nonpos_iff.2 (Or.inr ⟨hT, hsq.le⟩)
        constructor
        · intro h
          exact absurd (h.trans_le hmul) (not_lt.2 hS)
        · rintro (⟨h1, _⟩ | ⟨_, h2, _⟩)
          · exact absurd h1 (not_lt.2 hs)
          · exact absurd h2 (not_lt.2 ht)
      · push_neg at hs
        have hS : (s : ℝ) < 0 := by exact_mod_cast hs
        have hiff : ((s : ℝ) < (θ : ℝ) * Real.sqrt (d2 : ℝ)) ↔
            (θ ^ 2 * d2 < s ^ 2) := by
          rcases eq_or_lt_of_le hT with hteq | htlt
          · rw [hteq, zero_mul]
            constructor
            · intro _
              have h0 : (0 : ℝ) < (s : ℝ) ^ 2 := pow_two_pos_of_ne_zero hS.ne
              have h0q : (0 : ℚ) < s ^ 2 := by exact_mod_cast h0
              have hθ0 : θ = 0 := by exact_mod_cast hteq
              rw [hθ0]
              simpa using h0q
            · intro _
              exact hS
          · have hnT : (0 : ℝ) < -(θ : ℝ) := by linarith
            have hnS : (0 : ℝ) < -(s : ℝ) := by linarith
            have e1 : ((s : ℝ) < (θ : ℝ) * Real.sqrt (d2 : ℝ)) ↔
                (-((θ : ℝ) * Real.sqrt (d2 : ℝ)) < -(s : ℝ)) := by
              constructor
              · intro h; linarith
              · intro h; linarith
            have e2 : (-((θ : ℝ) * Real.sqrt (d2 : ℝ)) < -(s : ℝ)) ↔
                (Real.sqrt (d2 : ℝ) < -(s : ℝ) / -(θ : ℝ)) := by
              rw [lt_div_iff hnT,
                show Real.sqrt (d2 : ℝ) * -(θ : ℝ) = -((θ : ℝ) * Real.sqrt (d2 : ℝ)) by ring]
            have e3 : (Real.sqrt (d2 : ℝ) < -(s : ℝ) / -(θ : ℝ)) ↔
                ((d2 : ℝ) < (-(s : ℝ) / -(θ : ℝ)) ^ 2) :=
              Real.sqrt_lt' (div_pos hnS hnT)
            have e4 : ((d2 : ℝ) < (-(s : ℝ) / -(θ : ℝ)) ^ 2) ↔
                ((θ : ℝ) ^ 2 * (d2 : ℝ) < (s : ℝ) ^ 2) := by
              rw [show (-(s : ℝ) / -(θ : ℝ)) ^ 2 = (s : ℝ) ^ 2 / (θ : ℝ) ^ 2 by
                    rw [div_pow]; ring_nf,
                lt_div_iff (pow_two_pos_of_ne_zero htlt.ne), mul_comm]
            rw [e1, e2, e3, e4]
            constructor
            · intro h; exact_mod_cast h
            · intro h; exact_mod_cast h
        rw [hiff]
        constructor
        · intro h
          exact Or.inl ⟨hs, fun _ => h⟩
        · rintro (⟨_, h1⟩ | ⟨h1, _⟩)
          · exact h1 ht
          · exact absurd h1 (not_le.2 hs)

instance (s d2 θ : Scalar) : Decidable (sqrtDivLt s d2 θ) :=
  decidable_of_iff _ (sqrtDivLt_iff s d2 θ).symm

namespace QuadTree

mutual

/-- The opening-angle traversal (QuadTreeIter::next in
quadtree/quadtree.rs), modelled as the list of nodes the iterator yields,
in order.  The iterator pops a node from an explicit stack, computes
s (box side length) and d (Euclidean distance from the query point to the
node's aggregate position), skips the node — children and all — when
d = 0, yields the node when it is a leaf or s/d < theta, and otherwise
pushes the present children; since the children are pushed in index order
onto a LIFO stack, each pushed child's subtree is processed completely,
in reverse index order, before the rest of the stack. -/
def visit (p : Vec2) (θ : Scalar) : QuadTree → List QuadTree
  | .node bb pa cs =>
    let d2 := (pa.position.1 - p.1) ^ 2 + (pa.position.2 - p.2) ^ 2
    if sqrtIsZero d2 then []
    else if (QuadTree.node bb pa cs).is_subdivided = false ∨ sqrtDivLt bb.length d2 θ then
      [QuadTree.node bb pa cs]
    else
      visitRev p θ cs

/-- Processing order of a pushed children list: pushed in index order,
popped in reverse. -/
def visitRev (p : Vec2) (θ : Scalar) : List (Option QuadTree) → List QuadTree
  | [] => []
  | c :: rest =>
    visitRev p θ rest ++
      (match c with
       | none => []
       | some t => visit p θ t)

end

end QuadTree

/-- The acceleration contribution of one yielded source node in
Simulation::step: (mass / |d|^2) * normalize(d) componentwise, where d is
the vector from the particle to the node's aggregate position and
normalize divides by the Euclidean norm (the real square root, hence the
value lives in ℝ × ℝ and the definition is noncomputable; no proof needs
to evaluate it). -/
noncomputable def contribution (mass : Scalar) (d : Vec2) : ℝ × ℝ :=
  let mag2 : Scalar := d.1 ^ 2 + d.2 ^ 2
  (((mass / mag2 : ℚ) : ℝ) * ((d.1 : ℝ) / Real.sqrt ((mag2 : ℚ) : ℝ)),
   ((mass / mag2 : ℚ) : ℝ) * ((d.2 : ℝ) / Real.sqrt ((mag2 : ℚ) : ℝ)))

/-- One iteration of the traversal loop in Simulation::step: overwrite the
particle's acceleration with the yielded node's contribution. -/
noncomputable def assignAcc (q : Particle) (nd : QuadTree) : Particle :=
  { q with
    acceleration :=
      contribution nd.particle.mass
        (nd.particle.position.1 - q.position.1,
         nd.particle.position.2 - q.position.2) }

/-- The per-particle body of Simulation::step: iterate the opening-angle
traversal from the particle's position and assign (not accumulate) each
yielded node's contribution to the particle's acceleration, so the last
yielded node wins. -/
noncomputable def stepParticle (θ : Scalar) (qt : QuadTree) (p : Particle) :
    Particle :=
  (QuadTree.visit p.position θ qt).foldl assignAcc p

/-- Simulation::step at the particle-list level: build a fresh tree from a
snapshot of the particles (fuel meters tree construction, which the
source repeats every step; the traversal itself always terminates) and
update every particle's acceleration in place. -/
noncomputable def stepSim (θ : Scalar) (ps : List Particle) (fuel : ℕ) :
    Option (List Particle) :=
  (QuadTree.from_points ps fuel).map (fun qt => ps.map (stepParticle θ qt))

namespace Particle

/-- Source Particle::compare: splits the pair as (lesser, greater) by
mass, ties giving (p2, p1). -/
def compare (p1 p2 : Particle) : Particle × Particle :=
  if p1.mass ≥ p2.mass then (p2, p1) else (p1, p2)

end Particle

/-- Source Simulation::remove_particle: keep exactly the particles whose
id differs from the given one. -/
def remove_particle (ps : List Particle) (pid : ℕ) : List Particle :=
  ps.filter (fun p => p.id != pid)

/-- Source Simulation::merge_particle: order the colliding pair by mass,
find the index of the first stored particle carrying the greater one's
id, update that stored particle in place — radius first, then mass using
the already-updated radius, then velocity weighted by the pre-merge
snapshot mass of the greater particle — and finally remove the lesser
particle by id. -/
def merge_particle (ps : List Particle) (p1 p2 : Particle) : List Particle :=
  let lg := Particle.compare p1 p2
  let lesser := lg.1
  let greater := lg.2
  match ps.findIdx? (fun p => p.id == greater.id) with
  | none => ps
  | some idx =>
    let p := ps.getD idx Particle.empty
    let radius := p.radius + lesser.radius / 10
    let mass := p.mass + lesser.mass * radius
    let velocity :=
      ((greater.mass * greater.velocity.1 + lesser.mass * lesser.velocity.1) / greater.mass,
       (greater.mass * greater.velocity.2 + lesser.mass * lesser.velocity.2) / greater.mass)
    remove_particle
      (ps.set idx { p with radius := radius, mass := mass, velocity := velocity })
      lesser.id

/-- Simulation state (source Simulation in simulation.rs). -/
structure Simulation where
  particles : List Particle
  time_step : Scalar
  theta : Scalar

namespace Simulation

/-- Source Simulation::change_time_step: additive, and a no-op whenever
the sum would not be positive. -/
def change_time_step (s : Simulation) (step_offset : Scalar) : Simulation :=
  let new_step := s.time_step + step_offset
  if new_step > 0 then { s with time_step := new_step } else s

/-- Source Simulation::step, at the state level. -/
noncomputable def step (s : Simulation) (fuel : ℕ) : Option Simulation :=
  (stepSim s.theta s.particles fuel).map (fun ps => { s with particles := ps })

end Simulation

/-- Min/max pair on one axis (source MinMax in utils.rs). -/
structure MinMax where
  min : Scalar
  max : Scalar

/-- Options of the window-to-viewport transform (source
ViewportTransformOptions in utils.rs). -/
structure ViewportTransformOptions where
  window_pos : Vec2
  xw : MinMax
  yw : MinMax
  xv : MinMax
  yv : MinMax

/-- Source utils::normalize_window_coordinates: per axis, the affine
window-to-viewport map v_min + (v - w_min) * (v_max - v_min)/(w_max -
w_min).  The source converts f32 to f64 and back; both conversions are
exact here. -/
def normalize_window_coordinates (options : ViewportTransformOptions) : Vec2 :=
  let sx := (options.xv.max - options.xv.min) / (options.xw.max - options.xw.min)
  let sy := (options.yv.max - options.yv.min) / (options.yw.max - options.yw.min)
  (options.xv.min + (options.window_pos.1 - options.xw.min) * sx,
   options.yv.min + (options.window_pos.2 - options.yw.min) * sy)

/-- Renderer-facing record (source file primitives/instance.rs; the source
type's name is a reserved word here): a position and a radius. -/
structure Inst where
  position : Vec2
  radius : Scalar

/-- Source Particle::to_instance: map the particle's world position
through the window-to-viewport transform against world bounds
[0,1000] x [0,1000] onto [-1,1] x [-1,1], and divide the radius by
MAX_X / 2. -/
def Particle.toInst (p : Particle) : Inst :=
  let ndc := normalize_window_coordinates
    { window_pos := p.position
      xw := { min := MIN_X, max := MAX_X }
      yw := { min := MIN_Y, max := MAX_Y }
      xv := { min := -1, max := 1 }
      yv := { min := -1, max := 1 } }
  { position := ndc, radius := p.radius / (MAX_X / 2) }

/-- Source Simulation::get_instances: the rendered snapshot. -/
def Simulation.get_instances (s : Simulation) : List Inst :=
  s.particles.map Particle.toInst

/-! Concrete data used by the closed witness theorems. -/

/-- A particle at (100,100) with mass 2. -/
def pA : Particle :=
  { id := 1, position := (100, 100), mass := 2, radius := 1,
    velocity := (0, 0), acceleration := (0, 0) }

/-- A particle at (700,700) with mass 3. -/
def pB : Particle :=
  { id := 2, position := (700, 700), mass := 3, radius := 1,
    velocity := (0, 0), acceleration := (0, 0) }

/-- A particle at the same position as pA, with mass 7. -/
def pC : Particle :=
  { id := 3, position := (100, 100), mass := 7, radius := 1,
    velocity := (0, 0), acceleration := (0, 0) }

/-- A particle outside the world bounds. -/
def pOut : Particle :=
  { id := 4, position := (1200, 600), mass := 5, radius := 1,
    velocity := (0, 0), acceleration := (0, 0) }

/-- The greater particle of the spec's merge example: mass 50, radius 2. -/
def mG : Particle :=
  { id := 10, position := (100, 100), mass := 50, radius := 2,
    velocity := (0, 0), acceleration := (0, 0) }

/-- The lesser particle of the spec's merge example: mass 10, radius 1. -/
def mL : Particle :=
  { id := 11, position := (108, 100), mass := 10, radius := 1,
    velocity := (0, 0), acceleration := (0, 0) }

/-- Particles pinning the three corner cases of the viewport map. -/
def p00 : Particle :=
  { id := 20, position := (0, 0), mass := 1, radius := 1,
    velocity := (0, 0), acceleration := (0, 0) }

def p1000 : Particle :=
  { id := 21, position := (1000, 1000), mass := 1, radius := 1,
    velocity := (0, 0), acceleration := (0, 0) }

def p500 : Particle :=
  { id := 22, position := (500, 500), mass := 1, radius := 1,
    velocity := (0, 0), acceleration := (0, 0) }

/-- A simulation state with a unit timestep. -/
def simS : Simulation := { particles := [], time_step := 1, theta := 1 / 2 }

/-- The tree holding exactly pA. -/
def tA : QuadTree :=
  .node QuadBoundingBox.rootBox pA [none, none, none, none]

/-- The tree holding exactly pB. -/
def tB : QuadTree :=
  .node QuadBoundingBox.rootBox pB [none, none, none, none]

/-- The tree built by inserting pA then pB into an empty tree. -/
def tAB : QuadTree :=
  .node QuadBoundingBox.rootBox
    { id := 1, position := (460, 460), mass := 5, radius := 1,
      velocity := (0, 0), acceleration := (0, 0) }
    [none,
     some (.node { min_x := 500, max_x := 1000, min_y := 500, max_y := 1000 } pB
       [none, none, none, none]),
     some (.node { min_x := 0, max_x := 500, min_y := 0, max_y := 500 } pA
       [none, none, none, none]),
     none]

/-- The tree built by inserting pB then pA into an empty tree: the same
shape and aggregate, rooted at pB's other fields. -/
def tBA : QuadTree :=
  .node QuadBoundingBox.rootBox
    { id := 2, position := (460, 460), mass := 5, radius := 1,
      velocity := (0, 0), acceleration := (0, 0) }
    [none,
     some (.node { min_x := 500, max_x := 1000, min_y := 500, max_y := 1000 } pB
       [none, none, none, none]),
     some (.node { min_x := 0, max_x := 500, min_y := 0, max_y := 500 } pA
       [none, none, none, none]),
     none]

/-! Shared helper lemmas. -/

/-- Inside the box, the quadrant index is below 4 and the matching child
box contains the point.  Shared by the geometry claims. -/
theorem quadrant_mem_child (b : QuadBoundingBox) (p : Vec2)
    (h : b.contains p) :
    b.get_point_quadrant p < 4 ∧
      (b.get_child_bb (b.get_point_quadrant p)).contains p := by
  obtain ⟨⟨hx1, hy1⟩, hx2, hy2⟩ := h
  by_cases hx : p.1 ≥ b.cx <;> by_cases hy : p.2 ≤ b.cy <;>
    [skip; push_neg at hy; push_neg at hx; (push_neg at hx; push_neg at hy)] <;>
    [(have hq : b.get_point_quadrant p = 3 := by
        simp [QuadBoundingBox.get_point_quadrant, hx, hy]);
     (have hq : b.get_point_quadrant p = 1 := by
        simp [QuadBoundingBox.get_point_quadrant, hx, not_le.2 hy]);
     (have hq : b.get_point_quadrant p = 2 := by
        simp [QuadBoundingBox.get_point_quadrant, not_le.2 hx, hy]);
     (have hq : b.get_point_quadrant p = 0 := by
        simp [QuadBoundingBox.get_point_quadrant, not_le.2 hx, not_le.2 hy])] <;>
  rw [hq] <;>
  simp only [QuadBoundingBox.get_child_bb, QuadBoundingBox.contains] <;>
  refine ⟨by norm_num, ⟨?_, ?_⟩, ?_, ?_⟩ <;>
  first
    | assumption
    | exact le_of_lt hx
    | exact le_of_lt hy

/-! Claim theorems. -/

/-- C5: get_point_quadrant is total with values in {0,1,2,3} (it is
x_bit + 2*y_bit by definition), and it is consistent with get_child_bb:
every point of the box lies in the child box of its quadrant. -/
theorem quadrant_total_and_consistent (b : QuadBoundingBox) (p : Vec2)
    (h : b.contains p) :
    b.get_point_quadrant p < 4 ∧
      (b.get_child_bb (b.get_point_quadrant p)).contains p :=
  quadrant_mem_child b p h

theorem quadrant_total_and_consistent_witness :
    QuadBoundingBox.rootBox.contains (327, 587) ∧
      (QuadBoundingBox.rootBox.get_point_quadrant (327, 587) < 4 ∧
        (QuadBoundingBox.rootBox.get_child_bb
          (QuadBoundingBox.rootBox.get_point_quadrant (327, 587))).contains
          (327, 587)) :=
  ⟨by decide, quadrant_total_and_consistent QuadBoundingBox.rootBox (327, 587) (by decide)⟩

/-- C4 counterexample: the four child boxes of the default square box do
overlap: box 0 and box 1 are distinct child boxes, yet the center point
(500, 500) is contained in both (containment is inclusive, so the
children share their midlines). -/
theorem child_bb_overlap_cex :
    QuadBoundingBox.rootBox.get_child_bb 0 ≠ QuadBoundingBox.rootBox.get_child_bb 1 ∧
    (QuadBoundingBox.rootBox.get_child_bb 0).contains (500, 500) ∧
    (QuadBoundingBox.rootBox.get_child_bb 1).contains (500, 500) := by
  refine ⟨?_, ?_, ?_⟩ <;>
    norm_num [QuadBoundingBox.get_child_bb, QuadBoundingBox.contains,
      QuadBoundingBox.cx, QuadBoundingBox.cy, QuadBoundingBox.rootBox,
      QuadBoundingBox.mk.injEq, MIN_X, MAX_X, MIN_Y, MAX_Y]

/-- C4 amended: for a nonempty square box the four children are
equal-sized squares; their union is exactly the parent (each point lies
in the child of its quadrant); and two distinct children contain a common
point only on the midlines x = cx or y = cy — where, containment being
inclusive, they do overlap rather than being disjoint. -/
theorem child_bb_partition (b : QuadBoundingBox)
    (hx : b.min_x ≤ b.max_x) (hy : b.min_y ≤ b.max_y)
    (hsq : b.max_x - b.min_x = b.max_y - b.min_y) :
    (∀ q, q < 4 →
      (b.get_child_bb q).length = b.length / 2 ∧
      (b.get_child_bb q).max_x - (b.get_child_bb q).min_x =
        (b.get_child_bb q).max_y - (b.get_child_bb q).min_y) ∧
    (∀ p : Vec2, b.contains p ↔ ∃ q, q < 4 ∧ (b.get_child_bb q).contains p) ∧
    (∀ p : Vec2, ∀ q1, q1 < 4 → ∀ q2, q2 < 4 → q1 ≠ q2 →
      (b.get_child_bb q1).contains p → (b.get_child_bb q2).contains p →
      p.1 = b.cx ∨ p.2 = b.cy) := by
  refine ⟨?_, ?_, ?_⟩
  · intro q hq
    interval_cases q <;>
      constructor <;>
      simp only [QuadBoundingBox.get_child_bb, QuadBoundingBox.length,
        QuadBoundingBox.cx, QuadBoundingBox.cy] <;>
      linarith
  · intro p
    constructor
    · intro hp
      exact ⟨b.get_point_quadrant p, (quadrant_mem_child b p hp).1,
        (quadrant_mem_child b p hp).2⟩
    · rintro ⟨q, hq, hc⟩
      have hcx1 : b.min_x ≤ b.cx := by
        simp only [QuadBoundingBox.cx]; linarith
      have hcx2 : b.cx ≤ b.max_x := by
        simp only [QuadBoundingBox.cx]; linarith
      have hcy1 : b.min_y ≤ b.cy := by
        simp only [QuadBoundingBox.cy]; linarith
      have hcy2 : b.cy ≤ b.max_y := by
        simp only [QuadBoundingBox.cy]; linarith
      interval_cases q <;>
        simp only [QuadBoundingBox.get_child_bb, QuadBoundingBox.contains] at hc ⊢ <;>
        obtain ⟨⟨h1, h2⟩, h3, h4⟩ := hc <;>
        exact ⟨⟨by linarith, by linarith⟩, by linarith, by linarith⟩
  · intro p q1 hq1 q2 hq2 hne hc1 hc2
    interval_cases q1 <;> interval_cases q2 <;>
      first
        | exact absurd rfl hne
        | (simp only [QuadBoundingBox.get_child_bb, QuadBoundingBox.contains] at hc1 hc2
           obtain ⟨⟨a1, a2⟩, a3, a4⟩ := hc1
           obtain ⟨⟨b1, b2⟩, b3, b4⟩ := hc2
           first
             | (left; linarith)
             | (right; linarith))

theorem child_bb_partition_witness :
    (QuadBoundingBox.rootBox.min_x ≤ QuadBoundingBox.rootBox.max_x ∧
     QuadBoundingBox.rootBox.min_y ≤ QuadBoundingBox.rootBox.max_y ∧
     QuadBoundingBox.rootBox.max_x - QuadBoundingBox.rootBox.min_x =
       QuadBoundingBox.rootBox.max_y - QuadBoundingBox.rootBox.min_y) ∧
    ((∀ q, q < 4 →
      (QuadBoundingBox.rootBox.get_child_bb q).length =
        QuadBoundingBox.rootBox.length / 2 ∧
      (QuadBoundingBox.rootBox.get_child_bb q).max_x -
          (QuadBoundingBox.rootBox.get_child_bb q).min_x =
        (QuadBoundingBox.rootBox.get_child_bb q).max_y -
          (QuadBoundingBox.rootBox.get_child_bb q).min_y) ∧
    (∀ p : Vec2, QuadBoundingBox.rootBox.contains p ↔
      ∃ q, q < 4 ∧ (QuadBoundingBox.rootBox.get_child_bb q).contains p) ∧
    (∀ p : Vec2, ∀ q1, q1 < 4 → ∀ q2, q2 < 4 → q1 ≠ q2 →
      (QuadBoundingBox.rootBox.get_child_bb q1).contains p →
      (QuadBoundingBox.rootBox.get_child_bb q2).contains p →
      p.1 = QuadBoundingBox.rootBox.cx ∨ p.2 = QuadBoundingBox.rootBox.cy)) :=
  ⟨⟨by decide, by decide,
    by norm_num [QuadBoundingBox.rootBox, MIN_X, MAX_X, MIN_Y, MAX_Y]⟩,
   child_bb_partition QuadBoundingBox.rootBox (by decide) (by decide)
     (by norm_num [QuadBoundingBox.rootBox, MIN_X, MAX_X, MIN_Y, MAX_Y])⟩

/-- C6: inserting a particle whose position is outside the node's
bounding box returns the tree unchanged — successfully (no error), with
the root aggregate mass in particular unchanged. -/
theorem insert_outside_unchanged (t : QuadTree) (p : Particle) (fuel : ℕ)
    (h : ¬ t.bounding_box.contains p.position) :
    t.insert_particle p fuel = some t ∧
    (t.insert_particle p fuel).map (fun r => r.particle.mass) =
      some t.particle.mass := by
  unfold QuadTree.insert_particle
  rw [if_pos h]
  exact ⟨rfl, rfl⟩

theorem insert_outside_unchanged_witness :
    ¬ tA.bounding_box.contains pOut.position ∧
    (tA.insert_particle pOut 5 = some tA ∧
      (tA.insert_particle pOut 5).map (fun r => r.particle.mass) =
        some tA.particle.mass) :=
  ⟨by decide, insert_outside_unchanged tA pOut 5 (by decide)⟩

/-- C8: change_time_step adds the offset when the result stays positive,
is a silent no-op otherwise, and across any sequence of offsets a
positive time_step stays positive. -/
theorem change_time_step_spec (s : Simulation) (h : 0 < s.time_step) :
    (∀ δ : Scalar, 0 < s.time_step + δ →
      (s.change_time_step δ).time_step = s.time_step + δ) ∧
    (∀ δ : Scalar, s.time_step + δ ≤ 0 → s.change_time_step δ = s) ∧
    (∀ ds : List Scalar,
      0 < (ds.foldl Simulation.change_time_step s).time_step) := by
  have hone : ∀ (s' : Simulation) (δ : Scalar), 0 < s'.time_step →
      0 < (s'.change_time_step δ).time_step := by
    intro s' δ hs
    simp only [Simulation.change_time_step]
    by_cases hc : s'.time_step + δ > 0
    · rw [if_pos hc]; exact hc
    · rw [if_neg hc]; exact hs
  refine ⟨?_, ?_, ?_⟩
  · intro δ hδ
    simp only [Simulation.change_time_step]
    rw [if_pos hδ]
  · intro δ hδ
    simp only [Simulation.change_time_step]
    rw [if_neg (not_lt.2 hδ)]
  · have key : ∀ (ds : List Scalar) (s' : Simulation), 0 < s'.time_step →
        0 < (ds.foldl Simulation.change_time_step s').time_step := by
      intro ds
      induction ds with
      | nil => intro s' hs; exact hs
      | cons d rest ih =>
        intro s' hs
        exact ih _ (hone s' d hs)
    exact fun ds => key ds s h

theorem change_time_step_spec_witness :
    0 < simS.time_step ∧
    ((∀ δ : Scalar, 0 < simS.time_step + δ →
      (simS.change_time_step δ).time_step = simS.time_step + δ) ∧
    (∀ δ : Scalar, simS.time_step + δ ≤ 0 → simS.change_time_step δ = simS) ∧
    (∀ ds : List Scalar,
      0 < (ds.foldl Simulation.change_time_step simS).time_step)) :=
  ⟨by norm_num [simS], change_time_step_spec simS (by norm_num [simS])⟩

/-- C9: to_instance applies the fixed affine window-to-viewport transform
v_min + (v - min) * (v_max - v_min)/(max - min) against world bounds
[0,1000] x [0,1000] onto [-1,1] x [-1,1] on both axes, scales the radius
by the same factor (1-(-1))/(1000-0) = 1/500, and in particular sends
(0,0) to (-1,-1), (1000,1000) to (1,1) and (500,500) to (0,0). -/
theorem toInst_affine :
    (∀ p : Particle,
      (Particle.toInst p).position.1 =
        -1 + (p.position.1 - MIN_X) * ((1 - (-1)) / (MAX_X - MIN_X)) ∧
      (Particle.toInst p).position.2 =
        -1 + (p.position.2 - MIN_Y) * ((1 - (-1)) / (MAX_Y - MIN_Y)) ∧
      (Particle.toInst p).radius = p.radius * ((1 - (-1)) / (MAX_X - MIN_X))) ∧
    (Particle.toInst p00).position = (-1, -1) ∧
    (Particle.toInst p1000).position = (1, 1) ∧
    (Particle.toInst p500).position = (0, 0) := by
  have hgen : ∀ p : Particle,
      (Particle.toInst p).position.1 =
        -1 + (p.position.1 - MIN_X) * ((1 - (-1)) / (MAX_X - MIN_X)) ∧
      (Particle.toInst p).position.2 =
        -1 + (p.position.2 - MIN_Y) * ((1 - (-1)) / (MAX_Y - MIN_Y)) ∧
      (Particle.toInst p).radius = p.radius * ((1 - (-1)) / (MAX_X - MIN_X)) := by
    intro p
    refine ⟨?_, ?_, ?_⟩ <;>
      simp only [Particle.toInst, normalize_window_coordinates,
        MIN_X, MAX_X, MIN_Y, MAX_Y] <;>
      ring_nf
  refine ⟨hgen, ?_, ?_, ?_⟩ <;>
    simp only [Particle.toInst, normalize_window_coordinates, p00, p1000, p500,
      MIN_X, MAX_X, MIN_Y, MAX_Y, Prod.mk.injEq] <;>
    norm_num

/-- No survivor of remove_particle carries the removed id. -/
theorem remove_particle_id (ps : List Particle) (pid : ℕ) :
    ∀ q ∈ remove_particle ps pid, q.id ≠ pid := by
  intro q hq
  have := (List.mem_filter.1 hq).2
  exact bne_iff_ne.1 this

/-- C2: merging a colliding pair updates the stored particle with the
greater id in place — radius += lesser.radius/10, then
mass += lesser.mass * (already-updated radius), then velocity set to the
snapshot-weighted mix divided by the greater's pre-merge mass — and
removes the lesser particle by id; on the spec's example (greater mass
50 radius 2, lesser mass 10 radius 1) the survivor has radius 2.1 and
mass 71. -/
theorem merge_particle_spec (ps : List Particle) (p1 p2 lesser greater : Particle)
    (hcmp : Particle.compare p1 p2 = (lesser, greater))
    (idx : ℕ)
    (hfind : ps.findIdx? (fun p => p.id == greater.id) = some idx)
    (hidx : idx < ps.length)
    (hget : ps.getD idx Particle.empty = greater)
    (hid : lesser.id ≠ greater.id) :
    (∀ q ∈ merge_particle ps p1 p2, q.id ≠ lesser.id) ∧
    (∃ q ∈ merge_particle ps p1 p2,
      q.id = greater.id ∧
      q.radius = greater.radius + lesser.radius / 10 ∧
      q.mass = greater.mass + lesser.mass * (greater.radius + lesser.radius / 10) ∧
      q.velocity =
        ((greater.mass * greater.velocity.1 + lesser.mass * lesser.velocity.1) /
            greater.mass,
         (greater.mass * greater.velocity.2 + lesser.mass * lesser.velocity.2) /
            greater.mass)) ∧
    (merge_particle [mG, mL] mG mL).map (fun q => (q.radius, q.mass)) =
      [(21 / 10, 71)] := by
  have hre : merge_particle ps p1 p2 =
      remove_particle
        (ps.set idx
          { greater with
            radius := greater.radius + lesser.radius / 10,
            mass := greater.mass +
              lesser.mass * (greater.radius + lesser.radius / 10),
            velocity :=
              ((greater.mass * greater.velocity.1 +
                  lesser.mass * lesser.velocity.1) / greater.mass,
               (greater.mass * greater.velocity.2 +
                  lesser.mass * lesser.velocity.2) / greater.mass) })
        lesser.id := by
    simp only [merge_particle, hcmp, hfind, hget]
  refine ⟨?_, ?_, ?_⟩
  · rw [hre]
    exact remove_particle_id _ _
  · rw [hre]
    refine ⟨_, List.mem_filter.2 ⟨List.mem_set _ idx (by simpa using hidx) _, ?_⟩,
      rfl, rfl, rfl, rfl⟩
    exact bne_iff_ne.2 (Ne.symm hid)
  · norm_num [merge_particle, Particle.compare, remove_particle, mG, mL,
      List.findIdx?]

theorem merge_particle_spec_witness :
    (Particle.compare mG mL = (mL, mG) ∧
     [mG, mL].findIdx? (fun p => p.id == mG.id) = some 0 ∧
     [mG, mL].getD 0 Particle.empty = mG ∧
     mL.id ≠ mG.id) ∧
    ((∀ q ∈ merge_particle [mG, mL] mG mL, q.id ≠ mL.id) ∧
     (∃ q ∈ merge_particle [mG, mL] mG mL,
       q.id = mG.id ∧
       q.radius = mG.radius + mL.radius / 10 ∧
       q.mass = mG.mass + mL.mass * (mG.radius + mL.radius / 10) ∧
       q.velocity =
         ((mG.mass * mG.velocity.1 + mL.mass * mL.velocity.1) / mG.mass,
          (mG.mass * mG.velocity.2 + mL.mass * mL.velocity.2) / mG.mass)) ∧
     (merge_particle [mG, mL] mG mL).map (fun q => (q.radius, q.mass)) =
       [(21 / 10, 71)]) :=
  ⟨⟨by norm_num [Particle.compare, mG, mL], rfl, rfl, by decide⟩,
   merge_particle_spec [mG, mL] mG mL mL mG
     (by norm_num [Particle.compare, mG, mL]) 0 rfl (by decide) rfl (by decide)⟩

/-- When the aggregated particle, the old occupant and the incoming
particle all sit at the same position, every quadrant test agrees at
every level, so the subdivision loop never exits: the fueled model
returns none for every fuel. -/
theorem subdivide_coincident (cmp pp q : Particle)
    (h1 : cmp.position = q.position) (h2 : pp.position = q.position) :
    ∀ (fuel : ℕ) (bb : QuadBoundingBox),
      QuadTree.subdivide cmp pp q bb fuel = none := by
  intro fuel
  induction fuel with
  | zero => intro bb; rfl
  | succ n ih =>
    intro bb
    unfold QuadTree.subdivide
    simp only [h1, h2, if_true, eq_self_iff_true]
    rw [ih]
    rfl

/-- C3: the source imposes no maximum subdivision depth.  Inserting a
particle at the position already aggregated at an occupied leaf
subdivides forever: for every fuel the fueled model exhausts its fuel
and returns none — there is no bounded-recursion fault or forced merge,
contradicting the claim. -/
theorem insert_coincident_diverges (b : QuadBoundingBox) (pp q : Particle)
    (hin : b.contains q.position)
    (hpos : pp.position = q.position)
    (hm : pp.mass ≠ 0)
    (hmm : pp.mass + q.mass ≠ 0) :
    ∀ fuel,
      (QuadTree.node b pp [none, none, none, none]).insert_particle q fuel =
        none := by
  intro fuel
  unfold QuadTree.insert_particle
  simp only [QuadTree.bounding_box_node, QuadTree.particle_node,
    QuadTree.children_node]
  rw [if_neg (not_not_intro hin)]
  rw [if_neg hm]
  cases fuel with
  | zero => rfl
  | succ n =>
    unfold QuadTree.insertDescend
    have hchild : ∀ i, (QuadTree.node b pp [none, none, none, none]).childAt i = none := by
      intro i
      unfold QuadTree.childAt
      simp only [QuadTree.children_node]
      rcases i with _ | _ | _ | _ | i <;> rfl
    have hsub : (QuadTree.node b pp [none, none, none, none]).is_subdivided = false := rfl
    simp only [hchild, hsub, Bool.false_eq_true, if_false,
      QuadTree.particle_node, QuadTree.bounding_box_node]
    apply subdivide_coincident
    · simp only [QuadTree.update_cm, QuadTree.particle_node,
        QuadTree.bounding_box_node]
      rw [hpos, Prod.ext_iff]
      constructor
      · show (pp.mass * q.position.1 + q.position.1 * q.mass) /
            (pp.mass + q.mass) = q.position.1
        rw [div_eq_iff hmm]
        ring
      · show (pp.mass * q.position.2 + q.position.2 * q.mass) /
            (pp.mass + q.mass) = q.position.2
        rw [div_eq_iff hmm]
        ring
    · exact hpos

theorem insert_coincident_diverges_witness :
    (QuadBoundingBox.rootBox.contains pC.position ∧
     pA.position = pC.position ∧ pA.mass ≠ 0 ∧ pA.mass + pC.mass ≠ 0) ∧
    ∀ fuel,
      (QuadTree.node QuadBoundingBox.rootBox pA
        [none, none, none, none]).insert_particle pC fuel = none :=
  ⟨⟨by decide, rfl, by norm_num [pA], by norm_num [pA, pC]⟩,
   insert_coincident_diverges QuadBoundingBox.rootBox pA pC (by decide) rfl
     (by norm_num [pA]) (by norm_num [pA, pC])⟩

/-- A node with four empty slots has no child at any index. -/
theorem childAt_none4 (bb : QuadBoundingBox) (p : Particle) (i : ℕ) :
    (QuadTree.node bb p [none, none, none, none]).childAt i = none := by
  unfold QuadTree.childAt
  simp only [QuadTree.children_node]
  rcases i with _ | _ | _ | _ | i <;> rfl

/-- A successful subdivision returns a node carrying the aggregate
particle and the starting bounding box. -/
theorem subdivide_some_particle (cmp pp q : Particle) :
    ∀ (fuel : ℕ) (bb : QuadBoundingBox) (t : QuadTree),
      QuadTree.subdivide cmp pp q bb fuel = some t →
      t.particle = cmp ∧ t.bounding_box = bb := by
  intro fuel
  induction fuel with
  | zero =>
    intro bb t h
    exact absurd h (by simp [QuadTree.subdivide])
  | succ n ih =>
    intro bb t h
    simp only [QuadTree.subdivide] at h
    split at h
    · split at h
      · obtain ⟨sub, _, rfl⟩ := Option.map_eq_some'.1 h
        exact ⟨rfl, rfl⟩
      · exact absurd h (by simp)
    · obtain rfl := Option.some_inj.1 h
      constructor <;> simp [QuadTree.add_child]

/-- Inserting into an occupied leaf: the descent immediately runs the
subdivision loop on the aggregate-updated particle. -/
theorem insertDescend_leaf (bb : QuadBoundingBox) (pp q : Particle) (n : ℕ) :
    QuadTree.insertDescend q (QuadTree.node bb pp [none, none, none, none])
        (n + 1) =
      QuadTree.subdivide
        { pp with
          position :=
            ((pp.mass * pp.position.1 + q.position.1 * q.mass) /
                (pp.mass + q.mass),
             (pp.mass * pp.position.2 + q.position.2 * q.mass) /
                (pp.mass + q.mass)),
          mass := pp.mass + q.mass }
        pp q bb n := by
  unfold QuadTree.insertDescend
  have hsub : (QuadTree.node bb pp [none, none, none, none]).is_subdivided =
      false := rfl
  simp only [childAt_none4, hsub, Bool.false_eq_true, if_false,
    QuadTree.particle_node, QuadTree.bounding_box_node]
  rfl

/-- Inserting A then B into the empty tree, when it succeeds, leaves the
root aggregate at total mass A+B and the said mass-weighted position. -/
theorem insert_two_aggregate (A B : Particle) (hA : A.mass ≠ 0)
    (hcA : QuadBoundingBox.rootBox.contains A.position)
    (hcB : QuadBoundingBox.rootBox.contains B.position)
    (f1 f2 : ℕ) (t1 : QuadTree)
    (h : (QuadTree.empty.insert_particle A f1).bind
          (fun t => t.insert_particle B f2) = some t1) :
    t1.particle.mass = A.mass + B.mass ∧
    t1.particle.position =
      ((A.mass * A.position.1 + B.position.1 * B.mass) / (A.mass + B.mass),
       (A.mass * A.position.2 + B.position.2 * B.mass) / (A.mass + B.mass)) := by
  have h1 : QuadTree.empty.insert_particle A f1 =
      some (QuadTree.node QuadBoundingBox.rootBox A [none, none, none, none]) := by
    unfold QuadTree.insert_particle QuadTree.empty
    simp only [QuadTree.bounding_box_node, QuadTree.particle_node,
      QuadTree.children_node]
    rw [if_neg (not_not_intro hcA),
      if_pos (show Particle.empty.mass = 0 from rfl)]
  rw [h1] at h
  have h2 : (QuadTree.node QuadBoundingBox.rootBox A
      [none, none, none, none]).insert_particle B f2 = some t1 := h
  unfold QuadTree.insert_particle at h2
  simp only [QuadTree.bounding_box_node, QuadTree.particle_node,
    QuadTree.children_node] at h2
  rw [if_neg (not_not_intro hcB), if_neg hA] at h2
  cases f2 with
  | zero => exact absurd h2 (by simp [QuadTree.insertDescend])
  | succ n =>
    rw [insertDescend_leaf] at h2
    have hp := (subdivide_some_particle _ _ _ n _ _ h2).1
    rw [hp]
    exact ⟨rfl, rfl⟩

/-- C7: center-of-mass aggregation at the root is order-independent:
whenever inserting A then B and inserting B then A into the empty tree
both succeed, the two root aggregates carry the same total mass and the
same mass-weighted position (exactly — the model has no rounding). -/
theorem insert_order_independent (A B : Particle)
    (hA : 0 < A.mass) (hB : 0 < B.mass)
    (hcA : QuadBoundingBox.rootBox.contains A.position)
    (hcB : QuadBoundingBox.rootBox.contains B.position)
    (f1 f2 g1 g2 : ℕ) (t1 t2 : QuadTree)
    (h1 : (QuadTree.empty.insert_particle A f1).bind
           (fun t => t.insert_particle B f2) = some t1)
    (h2 : (QuadTree.empty.insert_particle B g1).bind
           (fun t => t.insert_particle A g2) = some t2) :
    t1.particle.mass = t2.particle.mass ∧
    t1.particle.position = t2.particle.position := by
  obtain ⟨m1, p1⟩ := insert_two_aggregate A B hA.ne' hcA hcB f1 f2 t1 h1
  obtain ⟨m2, p2⟩ := insert_two_aggregate B A hB.ne' hcB hcA g1 g2 t2 h2
  constructor
  · rw [m1, m2, add_comm]
  · rw [p1, p2, Prod.ext_iff]
    constructor
    · show (A.mass * A.position.1 + B.position.1 * B.mass) / (A.mass + B.mass) =
        (B.mass * B.position.1 + A.position.1 * A.mass) / (B.mass + A.mass)
      rw [add_comm B.mass A.mass]
      congr 1
      ring
    · show (A.mass * A.position.2 + B.position.2 * B.mass) / (A.mass + B.mass) =
        (B.mass * B.position.2 + A.position.2 * A.mass) / (B.mass + A.mass)
      rw [add_comm B.mass A.mass]
      congr 1
      ring

/-- Evaluation: inserting pA into the empty tree yields the leaf tA. -/
theorem insert_empty_pA_eval : QuadTree.empty.insert_particle pA 5 = some tA := by
  norm_num [QuadTree.insert_particle, QuadTree.empty, QuadBoundingBox.rootBox,
    QuadBoundingBox.contains, Particle.empty, pA, tA, MIN_X, MAX_X, MIN_Y, MAX_Y]

/-- Evaluation: inserting pB into the empty tree yields the leaf tB. -/
theorem insert_empty_pB_eval : QuadTree.empty.insert_particle pB 5 = some tB := by
  norm_num [QuadTree.insert_particle, QuadTree.empty, QuadBoundingBox.rootBox,
    QuadBoundingBox.contains, Particle.empty, pB, tB, MIN_X, MAX_X, MIN_Y, MAX_Y]

/-- Evaluation: inserting pB into the leaf tA subdivides once and yields
tAB. -/
theorem insert_tA_pB_eval : tA.insert_particle pB 5 = some tAB := by
  norm_num [QuadTree.insert_particle, QuadTree.insertDescend, QuadTree.subdivide,
    QuadTree.childAt, QuadTree.update_cm, QuadTree.add_child, QuadTree.is_subdivided,
    QuadBoundingBox.rootBox, QuadBoundingBox.contains,
    QuadBoundingBox.get_point_quadrant, QuadBoundingBox.get_child_bb,
    QuadBoundingBox.cx, QuadBoundingBox.cy, pA, pB, tA, tAB,
    MIN_X, MAX_X, MIN_Y, MAX_Y, List.getD]

/-- Evaluation: inserting pA into the leaf tB subdivides once and yields
tBA. -/
theorem insert_tB_pA_eval : tB.insert_particle pA 5 = some tBA := by
  norm_num [QuadTree.insert_particle, QuadTree.insertDescend, QuadTree.subdivide,
    QuadTree.childAt, QuadTree.update_cm, QuadTree.add_child, QuadTree.is_subdivided,
    QuadBoundingBox.rootBox, QuadBoundingBox.contains,
    QuadBoundingBox.get_point_quadrant, QuadBoundingBox.get_child_bb,
    QuadBoundingBox.cx, QuadBoundingBox.cy, pA, pB, tB, tBA,
    MIN_X, MAX_X, MIN_Y, MAX_Y, List.getD]

theorem insert_order_independent_witness :
    (0 < pA.mass ∧ 0 < pB.mass ∧
     QuadBoundingBox.rootBox.contains pA.position ∧
     QuadBoundingBox.rootBox.contains pB.position ∧
     (QuadTree.empty.insert_particle pA 5).bind
       (fun t => t.insert_particle pB 5) = some tAB ∧
     (QuadTree.empty.insert_particle pB 5).bind
       (fun t => t.insert_particle pA 5) = some tBA) ∧
    (tAB.particle.mass = tBA.particle.mass ∧
     tAB.particle.position = tBA.particle.position) :=
  ⟨⟨by norm_num [pA], by norm_num [pB], by decide, by decide,
    by rw [insert_empty_pA_eval]; exact insert_tA_pB_eval,
    by rw [insert_empty_pB_eval]; exact insert_tB_pA_eval⟩,
   insert_order_independent pA pB (by norm_num [pA]) (by norm_num [pB])
     (by decide) (by decide) 5 5 5 5 tAB tBA
     (by rw [insert_empty_pA_eval]; exact insert_tA_pB_eval)
     (by rw [insert_empty_pB_eval]; exact insert_tB_pA_eval)⟩

/-- The traversal loop of step only ever writes the acceleration field. -/
theorem assignAcc_foldl_fields (l : List QuadTree) (p : Particle) :
    (l.foldl assignAcc p).id = p.id ∧
    (l.foldl assignAcc p).position = p.position ∧
    (l.foldl assignAcc p).velocity = p.velocity ∧
    (l.foldl assignAcc p).mass = p.mass ∧
    (l.foldl assignAcc p).radius = p.radius := by
  induction l generalizing p with
  | nil => exact ⟨rfl, rfl, rfl, rfl, rfl⟩
  | cons a rest ih =>
    simp only [List.foldl_cons]
    simpa [assignAcc] using ih (assignAcc p a)

/-- The assignment loop of step leaves exactly the last yielded node's
contribution in the acceleration field. -/
theorem assignAcc_foldl_last (l : List QuadTree) (p : Particle)
    (nd : QuadTree) (h : l.getLast? = some nd) :
    (l.foldl assignAcc p).acceleration =
      contribution nd.particle.mass
        (nd.particle.position.1 - p.position.1,
         nd.particle.position.2 - p.position.2) := by
  have hne : l ≠ [] := by
    intro hl
    rw [hl] at h
    exact Option.noConfusion h
  have hnd : nd = l.getLast hne := by
    have := List.getLast?_eq_getLast l hne
    rw [this] at h
    exact (Option.some_inj.1 h).symm
  subst hnd
  conv_lhs => rw [(List.dropLast_append_getLast hne).symm]
  rw [List.foldl_append]
  simp only [List.foldl_cons, List.foldl_nil, assignAcc]
  rw [(assignAcc_foldl_fields l.dropLast p).2.1]

/-- C1: after step, a particle whose opening-angle traversal yields at
least one source node holds exactly the contribution
(source_mass / |r|^2) * r-hat of the last yielded node, r running from
the particle to that node's aggregate position: every earlier yielded
contribution has been overwritten, not summed. -/
theorem step_overwrites_acceleration (θ : Scalar) (ps : List Particle)
    (fuel : ℕ) (qt : QuadTree)
    (hqt : QuadTree.from_points ps fuel = some qt)
    (i : ℕ) (hi : i < ps.length) (nd : QuadTree)
    (hl : (QuadTree.visit (ps.get ⟨i, hi⟩).position θ qt).getLast? = some nd) :
    stepSim θ ps fuel = some (ps.map (stepParticle θ qt)) ∧
    ∀ hi' : i < (ps.map (stepParticle θ qt)).length,
      ((ps.map (stepParticle θ qt)).get ⟨i, hi'⟩).acceleration =
        contribution nd.particle.mass
          (nd.particle.position.1 - (ps.get ⟨i, hi⟩).position.1,
           nd.particle.position.2 - (ps.get ⟨i, hi⟩).position.2) := by
  constructor
  · unfold stepSim
    rw [hqt]
    rfl
  · intro hi'
    have hmap : ((ps.map (stepParticle θ qt)).get ⟨i, hi'⟩) =
        stepParticle θ qt (ps.get ⟨i, hi⟩) := by
      simp [List.get_eq_getElem, List.getElem_map]
    rw [hmap]
    unfold stepParticle
    exact assignAcc_foldl_last _ _ nd hl

/-- C10: step writes only accelerations: it neither adds nor removes
particles, and every particle keeps its id, position, velocity, mass and
radius. -/
theorem step_frame (θ : Scalar) (ps : List Particle) (fuel : ℕ)
    (qt : QuadTree) (hqt : QuadTree.from_points ps fuel = some qt) :
    stepSim θ ps fuel = some (ps.map (stepParticle θ qt)) ∧
    (ps.map (stepParticle θ qt)).length = ps.length ∧
    ∀ (i : ℕ) (hi : i < ps.length)
      (hi' : i < (ps.map (stepParticle θ qt)).length),
      ((ps.map (stepParticle θ qt)).get ⟨i, hi'⟩).id = (ps.get ⟨i, hi⟩).id ∧
      ((ps.map (stepParticle θ qt)).get ⟨i, hi'⟩).position =
        (ps.get ⟨i, hi⟩).position ∧
      ((ps.map (stepParticle θ qt)).get ⟨i, hi'⟩).velocity =
        (ps.get ⟨i, hi⟩).velocity ∧
      ((ps.map (stepParticle θ qt)).get ⟨i, hi'⟩).mass = (ps.get ⟨i, hi⟩).mass ∧
      ((ps.map (stepParticle θ qt)).get ⟨i, hi'⟩).radius =
        (ps.get ⟨i, hi⟩).radius := by
  refine ⟨?_, List.length_map _ _, ?_⟩
  · unfold stepSim
    rw [hqt]
    rfl
  · intro i hi hi'
    have hmap : ((ps.map (stepParticle θ qt)).get ⟨i, hi'⟩) =
        stepParticle θ qt (ps.get ⟨i, hi⟩) := by
      simp [List.get_eq_getElem, List.getElem_map]
    rw [hmap]
    unfold stepParticle
    exact assignAcc_foldl_fields _ _

/-- Evaluation: building the tree from [pA, pB] yields tAB. -/
theorem from_points_AB_eval : QuadTree.from_points [pA, pB] 5 = some tAB := by
  unfold QuadTree.from_points
  simp [List.foldlM_cons, List.foldlM_nil, insert_empty_pA_eval,
    insert_tA_pB_eval]

/-- Evaluation: with theta = 1000000, the traversal for pA yields exactly
the root of tAB (the opening-angle test accepts the root immediately). -/
theorem visit_pA_tAB_eval :
    QuadTree.visit pA.position 1000000 tAB = [tAB] := by
  norm_num [tAB, pA, pB, QuadTree.visit, QuadTree.visitRev,
    QuadTree.is_subdivided, sqrtIsZero_iff, sqrtDivLt_iff,
    QuadBoundingBox.rootBox, QuadBoundingBox.length,
    MIN_X, MAX_X, MIN_Y, MAX_Y]

theorem step_overwrites_acceleration_witness :
    (QuadTree.from_points [pA, pB] 5 = some tAB ∧
     (QuadTree.visit ([pA, pB].get ⟨0, by norm_num⟩).position 1000000
         tAB).getLast? = some tAB) ∧
    (stepSim 1000000 [pA, pB] 5 =
       some ([pA, pB].map (stepParticle 1000000 tAB)) ∧
     ∀ hi' : 0 < ([pA, pB].map (stepParticle 1000000 tAB)).length,
       (([pA, pB].map (stepParticle 1000000 tAB)).get ⟨0, hi'⟩).acceleration =
         contribution tAB.particle.mass
           (tAB.particle.position.1 - ([pA, pB].get ⟨0, by norm_num⟩).position.1,
            tAB.particle.position.2 -
              ([pA, pB].get ⟨0, by norm_num⟩).position.2)) :=
  ⟨⟨from_points_AB_eval,
    by
      show (QuadTree.visit pA.position 1000000 tAB).getLast? = some tAB
      rw [visit_pA_tAB_eval]
      rfl⟩,
   step_overwrites_acceleration 1000000 [pA, pB] 5 tAB from_points_AB_eval 0
     (by norm_num) tAB
     (by
       show (QuadTree.visit pA.position 1000000 tAB).getLast? = some tAB
       rw [visit_pA_tAB_eval]
       rfl)⟩

theorem step_frame_witness :
    QuadTree.from_points [pA, pB] 5 = some tAB ∧
    (stepSim (1 / 2) [pA, pB] 5 =
       some ([pA, pB].map (stepParticle (1 / 2) tAB)) ∧
     ([pA, pB].map (stepParticle (1 / 2) tAB)).length = [pA, pB].length ∧
     ∀ (i : ℕ) (hi : i < [pA, pB].length)
       (hi' : i < ([pA, pB].map (stepParticle (1 / 2) tAB)).length),
       (([pA, pB].map (stepParticle (1 / 2) tAB)).get ⟨i, hi'⟩).id =
         ([pA, pB].get ⟨i, hi⟩).id ∧
       (([pA, pB].map (stepParticle (1 / 2) tAB)).get ⟨i, hi'⟩).position =
         ([pA, pB].get ⟨i, hi⟩).position ∧
       (([pA, pB].map (stepParticle (1 / 2) tAB)).get ⟨i, hi'⟩).velocity =
         ([pA, pB].get ⟨i, hi⟩).velocity ∧
       (([pA, pB].map (stepParticle (1 / 2) tAB)).get ⟨i, hi'⟩).mass =
         ([pA, pB].get ⟨i, hi⟩).mass ∧
       (([pA, pB].map (stepParticle (1 / 2) tAB)).get ⟨i, hi'⟩).radius =
         ([pA, pB].get ⟨i, hi⟩).radius) :=
  ⟨from_points_AB_eval,
   step_frame (1 / 2) [pA, pB] 5 tAB from_points_AB_eval⟩
